import Mathlib

/-!
# Incremental calibration: steering error term, camera calibration driver, linear solver

A shallow embedding of

* `incremental_calibration_examples_car/src/car/ErrorTermSteering.cpp`
* `incremental_calibration_examples_camera/src/camera/calibrateCamera.cpp`
* `incremental_calibration/include/aslam/calibration/core/LinearSolver.h`

Conventions of the embedding.

* A C++ `double` is an element of a type `K` that carries the arithmetic operations
  the code uses (`+`, `-`, `*`, `/`, unary `-`, `0`, `1`).  The definitions assume no
  law about these operations and keep the order of evaluation of the source, so
  they can be read in binary64 arithmetic (`Double` below: rounding to nearest,
  ties to even, signed zeros, infinities and NaN) as well as in exact arithmetic
  (`ℚ`, `ℝ`).  Every statement says in which arithmetic it is made.
* `atan` (libm) and `sm::kinematics::angleMod` are external functions and are taken
  as parameters; analytic statements instantiate `atan` with `Real.arctan`.
* A pointer to a design variable is a natural number (its address); the values of
  the `VectorDesignVariable<11>` objects live in a memory `Nat → Fin 11 → K`.
* Fixed size Eigen vectors are functions on `Fin n`, fixed size Eigen matrices are
  `Matrix (Fin m) (Fin n) K`.
-/

namespace aslam.calibration

/-! ## Expressions and the fixed size error term base class -/

/-- An `aslam::backend::EuclideanExpression` as far as the steering term observes it:
the value `toValue()` returns and the design variables (addresses, in traversal
order, repetitions allowed) that `getDesignVariables` visits. -/
structure EuclideanExpression (K : Type) where
  /-- Result of `toValue()`. -/
  toValue : Fin 3 → K
  /-- Leaves visited by `getDesignVariables`. -/
  leaves : List Nat

/-- The set type `aslam::backend::DesignVariable::set_t`: a collection of design
variable addresses, kept as a list; `setInsert` is its only writer.  The order of
the list stands for the iteration order of the set, on which nothing depends. -/
abbrev DesignVariableSet := List Nat

/-- The element insertion `set_t::insert`: nothing happens when the element is
already present. -/
def setInsert (dv : DesignVariableSet) (d : Nat) : DesignVariableSet :=
  if d ∈ dv then dv else dv ++ [d]

/-- The call `EuclideanExpression::getDesignVariables(dv)`: every leaf of the
expression is inserted into the set passed by reference. -/
def EuclideanExpression.getDesignVariables {K : Type} (e : EuclideanExpression K)
    (dv : DesignVariableSet) : DesignVariableSet :=
  e.leaves.foldl setInsert dv

/-- The inverse `Eigen::Matrix<double, 1, 1>::inverse()` of a fixed size one by one
matrix: the reciprocal of its only coefficient. -/
def inverse {K : Type} [One K] [Div K] (Q : Matrix (Fin 1) (Fin 1) K) :
    Matrix (Fin 1) (Fin 1) K :=
  fun _ _ => 1 / Q 0 0

/-- The coefficient write `M(i, j) = x` of an Eigen matrix. -/
def assign {K : Type} {m n : Nat} (M : Matrix (Fin m) (Fin n) K) (i : Fin m) (j : Fin n)
    (x : K) : Matrix (Fin m) (Fin n) K :=
  Function.update M i (Function.update (M i) j x)

/-- The class `ErrorTermSteering`: the state of its base class `ErrorTermFs<1>`
(`error`, `invR`, `designVariables`) followed by its own members. -/
structure ErrorTermSteering (K : Type) where
  /-- Base class: the residual stored by `setError`. -/
  error : Fin 1 → K
  /-- Base class: the information matrix stored by `setInvR`. -/
  invR : Matrix (Fin 1) (Fin 1) K
  /-- Base class: the design variables stored by `setDesignVariablesIterator`. -/
  designVariables : List Nat
  /-- Member `_v_oo`. -/
  v_oo : EuclideanExpression K
  /-- Member `_om_oo`. -/
  om_oo : EuclideanExpression K
  /-- Member `_params`: address of a `VectorDesignVariable<11>`. -/
  params : Nat
  /-- Member `_odo`; only coefficient 0 of the input is ever read. -/
  odo : Fin 1 → K
  /-- Member `_Q`. -/
  Q : Matrix (Fin 1) (Fin 1) K

namespace ErrorTermSteering

variable {K : Type}

/-- Base class setter `setInvR`. -/
def setInvR (t : ErrorTermSteering K) (invR : Matrix (Fin 1) (Fin 1) K) : ErrorTermSteering K :=
  { t with invR := invR }

/-- Base class setter `setDesignVariablesIterator(begin, end)`: the range replaces
the stored design variables. -/
def setDesignVariablesIterator (t : ErrorTermSteering K) (dv : List Nat) :
    ErrorTermSteering K :=
  { t with designVariables := dv }

/-- Lines 112 to 124 of `evaluateErrorImplementation`: the value written to
`error(0)` before `angleMod` is applied. -/
def unwrappedError [Add K] [Sub K] [Mul K] [Div K] (atan : K → K) (params : Fin 11 → K)
    (v_oo om_oo : Fin 3 → K) (odo : Fin 1 → K) : K :=
  let v_oo_x := v_oo 0
  let om_oo_z := om_oo 2
  let L := params 0
  let a0 := params 3
  let a1 := params 4
  let a2 := params 5
  let a3 := params 6
  let phi := atan (L * om_oo_z / v_oo_x)
  a0 + a1 * odo 0 + a2 * odo 0 * odo 0 + a3 * odo 0 * odo 0 * odo 0 - phi

/-- The common denominator `sDenom` of line 146. -/
def sDenom [Add K] [Mul K] (params : Fin 11 → K) (v_oo om_oo : Fin 3 → K) : K :=
  let v_oo_x := v_oo 0
  let om_oo_z := om_oo 2
  let L := params 0
  v_oo_x * v_oo_x + (L * om_oo_z) * (L * om_oo_z)

/-- The three local Jacobians of `evaluateJacobiansImplementation`. -/
structure Jacobians (K : Type) where
  /-- Jacobian with respect to the odometry parameters. -/
  Ht : Matrix (Fin 1) (Fin 11) K
  /-- Jacobian with respect to `v_oo`. -/
  Hv : Matrix (Fin 1) (Fin 3) K
  /-- Jacobian with respect to `om_oo`. -/
  Ho : Matrix (Fin 1) (Fin 3) K

/-- Lines 132 to 153 of `evaluateJacobiansImplementation`: the matrices `Ht`, `Hv`
and `Ho` that are then handed to the chain rule of the expressions. -/
def steeringJacobians [Zero K] [One K] [Neg K] [Add K] [Mul K] [Div K]
    (params : Fin 11 → K) (v_oo om_oo : Fin 3 → K) (odo : Fin 1 → K) : Jacobians K :=
  let v_oo_x := v_oo 0
  let om_oo_z := om_oo 2
  let L := params 0
  let Ht : Matrix (Fin 1) (Fin 11) K := 0
  let Hv : Matrix (Fin 1) (Fin 3) K := 0
  let Ho : Matrix (Fin 1) (Fin 3) K := 0
  let denom := sDenom params v_oo om_oo
  let Ht := assign Ht 0 0 (-v_oo_x * om_oo_z / denom)
  let Ht := assign Ht 0 3 1
  let Ht := assign Ht 0 4 (odo 0)
  let Ht := assign Ht 0 5 (odo 0 * odo 0)
  let Ht := assign Ht 0 6 (odo 0 * odo 0 * odo 0)
  let Hv := assign Hv 0 0 (L * om_oo_z / denom)
  let Ho := assign Ho 0 2 (-L * v_oo_x / denom)
  { Ht := Ht, Hv := Hv, Ho := Ho }

/-- The method `evaluateJacobiansImplementation` on a term: the values are read
from the expressions and from the parameter design variable. -/
def evaluateJacobiansImplementation [Zero K] [One K] [Neg K] [Add K] [Mul K] [Div K]
    (mem : Nat → Fin 11 → K) (t : ErrorTermSteering K) : Jacobians K :=
  steeringJacobians (mem t.params) t.v_oo.toValue t.om_oo.toValue t.odo

/-! ## Constructors and accessors (`ErrorTermSteering.cpp`, lines 34 to 104) -/

/-- The constructor (lines 34 to 50).  The members are initialised, the information
matrix is set to `_Q.inverse()`, and the design variables of both expressions and
`params` are collected in a set that is handed to `setDesignVariablesIterator`.
The residual of a fresh base object is not initialised by C++; it is `0` here. -/
def construct [Zero K] [One K] [Div K] (v_oo om_oo : EuclideanExpression K) (params : Nat)
    (odo : Fin 1 → K) (Q : Matrix (Fin 1) (Fin 1) K) : ErrorTermSteering K :=
  let t : ErrorTermSteering K :=
    { error := 0, invR := 1, designVariables := [],
      v_oo := v_oo, om_oo := om_oo, params := params, odo := odo, Q := Q }
  let t := t.setInvR (inverse t.Q)
  let dv : DesignVariableSet := []
  let dv := v_oo.getDesignVariables dv
  let dv := om_oo.getDesignVariables dv
  let dv := setInsert dv params
  t.setDesignVariablesIterator dv

/-- The copy constructor (lines 52 to 59): the base class state and the five
members are copied from `other`. -/
def copy (other : ErrorTermSteering K) : ErrorTermSteering K :=
  { error := other.error, invR := other.invR, designVariables := other.designVariables,
    v_oo := other.v_oo, om_oo := other.om_oo, params := other.params,
    odo := other.odo, Q := other.Q }

/-- The accessor `getInput` (lines 81 to 87).  The non-const overload returns a
reference to the same member; a write through it acts as `setInput`. -/
def getInput (t : ErrorTermSteering K) : Fin 1 → K := t.odo

/-- The setter `setInput` (lines 89 to 91). -/
def setInput (t : ErrorTermSteering K) (odo : Fin 1 → K) : ErrorTermSteering K :=
  { t with odo := odo }

/-- The accessor `getCovariance` (lines 93 to 100).  The non-const overload returns
a reference to the same member; a write through it acts as `setCovariance`. -/
def getCovariance (t : ErrorTermSteering K) : Matrix (Fin 1) (Fin 1) K := t.Q

/-- The setter `setCovariance` (lines 102 to 104): only `_Q` is written. -/
def setCovariance (t : ErrorTermSteering K) (Q : Matrix (Fin 1) (Fin 1) K) :
    ErrorTermSteering K :=
  { t with Q := Q }

end ErrorTermSteering

/-! ## Objects in memory: copy construction, assignment, destruction -/

/-- The objects the steering terms live among: the `VectorDesignVariable<11>`
objects owned by the estimator and the `ErrorTermSteering` objects, both by
address; `none` is an address without a live object. -/
structure World (K : Type) where
  /-- Live design variables and their values. -/
  designVariables : Nat → Option (Fin 11 → K)
  /-- Live steering error terms. -/
  terms : Nat → Option (ErrorTermSteering K)

namespace World

variable {K : Type}

/-- Copy construction of a new term at address `self` from the term at address
`other` (lines 52 to 59). -/
def copyConstruct (w : World K) (self other : Nat) : World K :=
  match w.terms other with
  | some o => { w with terms := Function.update w.terms self (some o.copy) }
  | none => w

/-- The assignment `*self = *other` (lines 61 to 72): guarded by the address
comparison `this != &other`, the base class state and the members are assigned. -/
def assignOp (w : World K) (self other : Nat) : World K :=
  match w.terms self, w.terms other with
  | some _, some o =>
    if self ≠ other then
      let assigned : ErrorTermSteering K :=
        { error := o.error, invR := o.invR, designVariables := o.designVariables,
          v_oo := o.v_oo, om_oo := o.om_oo, params := o.params, odo := o.odo, Q := o.Q }
      { w with terms := Function.update w.terms self (some assigned) }
    else w
  | _, _ => w

/-- The destructor (lines 74 to 75) of the term at address `self`: its body is
empty, the term object goes away and nothing else is touched. -/
def destroy (w : World K) (self : Nat) : World K :=
  { w with terms := Function.update w.terms self none }

end World

/-! ## The camera calibration driver (`calibrateCamera.cpp`) -/

/-- A message of the bag: its topic, its image payload (an identifier) and the
time stamp `header.stamp.toNSec()`. -/
structure MessageInstance where
  /-- Result of `getTopic()`. -/
  topic : String
  /-- The instantiated image. -/
  image : Nat
  /-- The stamp in nanoseconds. -/
  stamp : Nat
deriving DecidableEq, Repr

/-- The entries of the configuration file that decide the control flow of `main`. -/
structure Config where
  /-- Entry `camera/rosTopic`. -/
  rosTopic : String
  /-- Entry `camera/calibrator/saveEstimatorImages`. -/
  saveEstimatorImages : Bool
  /-- Entry `camera/calibrator/outputErrors`. -/
  outputErrors : Bool
deriving DecidableEq, Repr

/-- The class `CameraCalibrator` as the control flow of `main` depends on it: a
state and the members whose results steer `main`, with their effect on the state.
The remaining members called by `main` (`processBatch`, the getters, `write`) do
not steer it and only appear as events. -/
structure CameraCalibrator (σ : Type) where
  /-- Member `initGeometry(image)`: success flag and new state. -/
  initGeometry : σ → Nat → Bool × σ
  /-- Member `addImage(image, stamp)`. -/
  addImage : σ → Nat → Nat → σ
  /-- Value of `getEstimatorObservations().size()`. -/
  numObservations : σ → Nat

/-- What `main` does to its surroundings, in program order. -/
inductive Event where
  /-- The usage line written to `std::cerr`. -/
  | printUsage
  /-- The call `config.loadXml(argv[2])`. -/
  | loadXml (file : String)
  /-- The bag `argv[1]` is opened and the view over the topic is created. -/
  | openBag (file : String)
  /-- The call `calibrator.initGeometry(image)`. -/
  | initGeometry (image : Nat)
  /-- The call `calibrator.getEstimatorObservations()`. -/
  | getEstimatorObservations
  /-- The call `calibrator.addImage(image, stamp)`. -/
  | addImage (image stamp : Nat)
  /-- The call `calibrator.getLastCheckerboardImage(...)`. -/
  | getLastCheckerboardImage
  /-- The call `cv::imwrite` of the checkerboard image of the given stamp. -/
  | imwrite (stamp : Nat)
  /-- The call `calibrator.processBatch()`. -/
  | processBatch
  /-- The call `calibrator.getProjection()`. -/
  | getProjection
  /-- The call `calibrator.getProjectionStandardDeviation()`. -/
  | getProjectionStandardDeviation
  /-- The call `calibrator.getDistortion()`. -/
  | getDistortion
  /-- The call `calibrator.getDistortionStandardDeviation()`. -/
  | getDistortionStandardDeviation
  /-- The call `calibrator.getNobsBasis(scaled)`. -/
  | getNobsBasis (scaled : Bool)
  /-- The call `calibrator.getInitialCost()`. -/
  | getInitialCost
  /-- The call `calibrator.getFinalCost()`. -/
  | getFinalCost
  /-- The call `calibrator.getStatistics(...)`. -/
  | getStatistics
  /-- The call `calibrator.write(calibrationData)`. -/
  | write
  /-- The call `calibrator.getOptions()`. -/
  | getOptions
  /-- The call `calibrator.getEstimator()`. -/
  | getEstimator
  /-- The call `calibrationData.saveXml(...)`. -/
  | saveXml
  /-- The call `calibrator.getErrors(...)`. -/
  | getErrors
  /-- The files `errors.txt` and `errorsMd2.txt` are written. -/
  | writeErrorFiles
deriving DecidableEq, Repr

/-- The view `rosbag::View(bag, rosbag::TopicQuery(topics))`: the messages of the
bag whose topic is one of `topics`, in bag order. -/
def view (bag : List MessageInstance) (topics : List String) : List MessageInstance :=
  bag.filter (fun m => decide (m.topic ∈ topics))

/-- Lines 65 to 72: the geometry initialisation loop, left at the first image for
which `initGeometry` succeeds. -/
def initGeometryLoop {σ : Type} (cal : CameraCalibrator σ) (rosTopic : String) :
    List MessageInstance → σ → σ × List Event
  | [], s => (s, [])
  | m :: ms, s =>
    if m.topic = rosTopic then
      let r := cal.initGeometry s m.image
      if r.1 then (r.2, [Event.initGeometry m.image])
      else
        let rest := initGeometryLoop cal rosTopic ms r.2
        (rest.1, Event.initGeometry m.image :: rest.2)
    else initGeometryLoop cal rosTopic ms s

/-- Lines 80 to 98: the body of the processing loop for one message.  The creation
of the directory `images` is folded into the `imwrite` event. -/
def processMessage {σ : Type} (cal : CameraCalibrator σ) (config : Config)
    (m : MessageInstance) (s : σ) : σ × List Event :=
  if m.topic = config.rosTopic then
    let numObservations := cal.numObservations s
    let s1 := cal.addImage s m.image m.stamp
    let saved : List Event :=
      if config.saveEstimatorImages then
        Event.getEstimatorObservations ::
          (if cal.numObservations s1 ≠ numObservations then
            [Event.getLastCheckerboardImage, Event.imwrite m.stamp]
          else [])
      else []
    (s1, [Event.getEstimatorObservations, Event.addImage m.image m.stamp] ++ saved)
  else (s, [])

/-- Lines 77 to 99: the processing loop over the whole view. -/
def processLoop {σ : Type} (cal : CameraCalibrator σ) (config : Config) :
    List MessageInstance → σ → σ × List Event
  | [], s => (s, [])
  | m :: ms, s =>
    let r := processMessage cal config m s
    let rest := processLoop cal config ms r.1
    (rest.1, r.2 ++ rest.2)

/-- Lines 102 to 157: what is read from the calibrator and written out after
`processBatch`. -/
def report (config : Config) : List Event :=
  [Event.getProjection, Event.getProjectionStandardDeviation, Event.getDistortion,
   Event.getDistortionStandardDeviation, Event.getNobsBasis false, Event.getNobsBasis true,
   Event.getInitialCost, Event.getFinalCost, Event.getEstimatorObservations,
   Event.getStatistics, Event.write, Event.getOptions, Event.getEstimator, Event.saveXml] ++
  (if config.outputErrors then [Event.getErrors, Event.writeErrorFiles] else [])

/-- The function `main` of `calibrateCamera.cpp`.  `config` is the content of the
configuration file `argv[2]`, `bag` the content of the bag file `argv[1]`, `s0` the
state of the freshly created calibrator.  The result is the exit code and the
events in program order.  Console progress output and exceptions of the libraries
are not part of the model. -/
def main {σ : Type} (cal : CameraCalibrator σ) (s0 : σ) (config : Config)
    (bag : List MessageInstance) (argc : Int) (argv : List String) : Int × List Event :=
  if argc ≠ 3 then (-1, [Event.printUsage])
  else
    let topics := [config.rosTopic]
    let v := view bag topics
    let r1 := initGeometryLoop cal config.rosTopic v s0
    let r2 := processLoop cal config v r1.1
    (0, [Event.loadXml (argv.getD 2 ""), Event.openBag (argv.getD 1 "")] ++ r1.2 ++ r2.2 ++
        [Event.processBatch] ++ report config)

/-- The events that read a final parameter, the unobservable basis, a cost or a
statistic from the calibrator. -/
def Event.isFinalRead : Event → Bool
  | .getProjection => true
  | .getProjectionStandardDeviation => true
  | .getDistortion => true
  | .getDistortionStandardDeviation => true
  | .getNobsBasis _ => true
  | .getInitialCost => true
  | .getFinalCost => true
  | .getStatistics => true
  | .getErrors => true
  | _ => false

/-- The arguments of an `addImage` call, nothing for any other event. -/
def Event.addImageArgs : Event → Option (Nat × Nat)
  | .addImage image stamp => some (image, stamp)
  | _ => none

/-! ## The linear solver (`LinearSolver.h`) -/

namespace LinearSolver

/-- Modelled from the spec: the result of the rank revealing factorizer, which is
not under `src/`: the numerical rank and the point update obtained by back
substitution, with the update zeroed along the null directions. -/
structure Factorization (K : Type) (n : Nat) where
  /-- The numerical rank, at most the number of columns. -/
  rank : Nat
  /-- The update from back substitution. -/
  update : Fin n → K

/-- Modelled from the spec: the system `(J, b)` built by `buildSystem`, whose body
is not under `src/`.  An entry `none` is a non-finite double. -/
structure System (K : Type) (m n : Nat) where
  /-- The Jacobian; its columns are the active design variable blocks. -/
  J : Matrix (Fin m) (Fin n) (Option K)
  /-- The stacked weighted residuals. -/
  b : Fin m → Option K

/-- Modelled from the spec: whether every entry of the system is finite. -/
def System.allFinite {K : Type} {m n : Nat} (s : System K m n) : Bool :=
  (List.finRange m).all (fun i => (s.b i).isSome && (List.finRange n).all (fun j => (s.J i j).isSome))

/-- Modelled from the spec: the body of `LinearSolver::solveSystem`, which is not
under `src/`.  The solver runs the factorizer and back substitutes to a point
update; it fails, reporting `false` and leaving `x` alone, when the system is
empty (no active design variables) or when the factorization fails for a numerical
reason such as non-finite entries; rank deficiency is not a failure.  The
factorizer itself is a parameter: `factorize` is `none` when it cannot proceed. -/
def solveSystem {K : Type} {m n : Nat}
    (factorize : System K m n → Option (Factorization K n))
    (s : System K m n) (x : Fin n → K) : Bool × (Fin n → K) :=
  if n = 0 then (false, x)
  else if !s.allFinite then (false, x)
  else
    match factorize s with
    | none => (false, x)
    | some f => (true, f.update)

/-- Modelled from the spec: the numeric Jacobian `J` of the built system.  A
non-finite entry reads as `0`; a system with such an entry has no update. -/
def System.jacobian {K : Type} [Zero K] {m n : Nat} (s : System K m n) :
    Matrix (Fin m) (Fin n) K :=
  fun i j => (s.J i j).getD 0

/-- Modelled from the spec: the update `Δx` of the currently built system, that is
what `solveSystem` delivers for it; the zero vector when the solver reports
failure. -/
def update {K : Type} [Zero K] {m n : Nat}
    (factorize : System K m n → Option (Factorization K n)) (s : System K m n) : Fin n → K :=
  (solveSystem factorize s 0).2

/-- Modelled from the spec: the body of `LinearSolver::rhsJtJrhs`, which is not
under `src/`.  The method takes no argument: the quadratic form is taken at the
update `Δx` of the currently built system, and it is computed as the squared norm
of `J * Δx`, so that no dense square matrix is formed.  Exact arithmetic. -/
def rhsJtJrhs {K : Type} [Field K] {m n : Nat}
    (factorize : System K m n → Option (Factorization K n)) (s : System K m n) : K :=
  let dx := update factorize s
  let Jdx := Matrix.mulVec s.jacobian dx
  Matrix.dotProduct Jdx Jdx

/-- The quadratic form `dx^T * J^T * J * dx` in the words of the specification
(`computeCovarianceQuadraticForm`), with the square matrix `J^T * J` formed. -/
def computeCovarianceQuadraticForm {K : Type} [Field K] {m n : Nat}
    (J : Matrix (Fin m) (Fin n) K) (dx : Fin n → K) : K :=
  Matrix.dotProduct dx (Matrix.mulVec (Matrix.transpose J * J) dx)

end LinearSolver

/-! ## Binary64 arithmetic -/

/-- The type `double` of the sources: an IEEE 754 binary64 value.  A finite value
is `(-1)^negative * m * 2^e`; the values the operations produce have `m < 2^53`,
`-1074 ≤ e ≤ 971` and `2^52 ≤ m` unless `e = -1074` (subnormal numbers and the two
zeros), so that equal numbers are equal terms. -/
inductive Double where
  /-- Not a number. -/
  | nan : Double
  /-- The two infinities. -/
  | inf (negative : Bool) : Double
  /-- The finite values, zeros included. -/
  | finite (negative : Bool) (m : Nat) (e : Int) : Double
deriving DecidableEq, Repr

namespace Double

/-- Number of binary digits of `n`, by halving; `fuel` bounds the number of steps
and `bitLength n n` is the number of digits of `n`. -/
def bitLength : Nat → Nat → Nat
  | 0, _ => 0
  | fuel + 1, n => if n = 0 then 0 else bitLength fuel (n / 2) + 1

/-- The exponent of the last binary digit kept when the positive value `n / d` is
rounded: with `2^E ≤ n / d < 2^(E+1)` it is `E - 52`, and `-1074` in the subnormal
range. -/
def quantum (n d : Nat) : Int :=
  let k : Int := (bitLength n n : Int) - (bitLength d d : Int)
  let E : Int := if n * 2 ^ (-k).toNat < d * 2 ^ k.toNat then k - 1 else k
  max (E - 52) (-1074)

/-- The last step of rounding: the rounded mantissa `m ≤ 2^53` at the exponent `e`
is renormalised when it reached `2^53`, and a value of `2^1024` or more is an
infinity. -/
def pack (negative : Bool) (m : Nat) (e : Int) : Double :=
  let m1 : Nat := if m = 2 ^ 53 then 2 ^ 52 else m
  let e1 : Int := if m = 2 ^ 53 then e + 1 else e
  if 971 < e1 then inf negative else finite negative m1 e1

/-- Rounding of the exact value `(-1)^negative * n / d` (with `d ≠ 0`) to binary64:
to nearest, ties to even, gradual underflow to subnormal numbers and to a signed
zero, overflow to a signed infinity. -/
def round (negative : Bool) (n d : Nat) : Double :=
  if n = 0 then finite negative 0 (-1074)
  else
    let e : Int := quantum n d
    let N : Nat := n * 2 ^ (-e).toNat
    let D : Nat := d * 2 ^ e.toNat
    let m0 : Nat := N / D
    let r : Nat := N % D
    let m : Nat := if D < 2 * r ∨ (2 * r = D ∧ m0 % 2 = 1) then m0 + 1 else m0
    pack negative m e

/-- Unary minus: the sign is flipped. -/
def neg : Double → Double
  | nan => nan
  | inf s => inf (!s)
  | finite s m e => finite (!s) m e

/-- Multiplication: the exact product, rounded; `inf * 0` is not a number. -/
def mul : Double → Double → Double
  | nan, _ => nan
  | _, nan => nan
  | inf s, inf t => inf (xor s t)
  | inf s, finite t m _ => if m = 0 then nan else inf (xor s t)
  | finite s m _, inf t => if m = 0 then nan else inf (xor s t)
  | finite s m e, finite t n f =>
    round (xor s t) (m * n * 2 ^ (e + f).toNat) (2 ^ (-(e + f)).toNat)

/-- Division: the exact quotient, rounded; `0 / 0` and `inf / inf` are not numbers,
a non-zero value over zero is an infinity. -/
def div : Double → Double → Double
  | nan, _ => nan
  | _, nan => nan
  | inf _, inf _ => nan
  | inf s, finite t _ _ => inf (xor s t)
  | finite s _ _, inf t => finite (xor s t) 0 (-1074)
  | finite s m e, finite t n f =>
    if n = 0 then (if m = 0 then nan else inf (xor s t))
    else round (xor s t) (m * 2 ^ (e - f).toNat) (n * 2 ^ (f - e).toNat)

/-- Addition: the exact sum, rounded; an exact zero sum is `-0` only when both
terms are negative, and `inf + -inf` is not a number. -/
def add : Double → Double → Double
  | nan, _ => nan
  | _, nan => nan
  | inf s, inf t => if s = t then inf s else nan
  | inf s, finite _ _ _ => inf s
  | finite _ _ _, inf t => inf t
  | finite s m e, finite t n f =>
    let g : Int := min e f
    let a : Int := (if s then -1 else 1) * (m * 2 ^ (e - g).toNat : Nat)
    let b : Int := (if t then -1 else 1) * (n * 2 ^ (f - g).toNat : Nat)
    let c : Int := a + b
    if c = 0 then finite (s && t) 0 (-1074)
    else round (decide (c < 0)) (c.natAbs * 2 ^ g.toNat) (2 ^ (-g).toNat)

/-- Subtraction: the sum with the negated second operand. -/
def sub (x y : Double) : Double := add x (neg y)

instance : Zero Double := ⟨finite false 0 (-1074)⟩

instance : One Double := ⟨finite false (2 ^ 52) (-52)⟩

instance : Neg Double := ⟨neg⟩

instance : Add Double := ⟨add⟩

instance : Sub Double := ⟨sub⟩

instance : Mul Double := ⟨mul⟩

instance : Div Double := ⟨div⟩

/-- The power of two `2^k` as a normal number, for `-1022 ≤ k ≤ 1023`. -/
def twoPow (k : Int) : Double := finite false (2 ^ 52) (k - 52)

/-- The rational value of a finite double; nothing for an infinity or NaN. -/
def value : Double → Option ℚ
  | finite s m e => some ((if s then -1 else 1) * (m : ℚ) * (2 : ℚ) ^ e)
  | _ => none

/-- Whether the double is one of the two zeros. -/
def isZero : Double → Bool
  | finite _ m _ => decide (m = 0)
  | _ => false

/-- The sign bit of an infinity or of a finite value, zeros included. -/
def signBit : Double → Bool
  | finite s _ _ => s
  | inf s => s
  | nan => false

end Double

/-! ## Concrete inputs used by the instance theorems -/

/-- A parameter memory: every design variable holds `L = 2`, `a0 .. a3 = 1`. -/
def exampleMem (K : Type) [Field K] : Nat → Fin 11 → K :=
  fun _ => ![2, 0, 0, 1, 1, 1, 1, 0, 0, 0, 0]

/-- A steering term built by the constructor: `v_oo = (1, 0, 0)` over the design
variables 4 and 7, `om_oo = (0, 0, 1)` over 7 and 9, parameters at address 5,
input 3 and covariance 2. -/
def exampleTerm (K : Type) [Field K] : ErrorTermSteering K :=
  ErrorTermSteering.construct ⟨![1, 0, 0], [4, 7, 4]⟩ ⟨![0, 0, 1], [7, 9]⟩ 5 ![3] !![2]

/-- A world with the design variable 5 alive and two steering terms, at the
addresses 0 and 1. -/
def exampleWorld : World ℚ where
  designVariables := fun a => if a = 5 then some (exampleMem ℚ 5) else none
  terms := fun a =>
    if a = 0 then some (exampleTerm ℚ)
    else if a = 1 then some ((exampleTerm ℚ).setInput ![8])
    else none

/-- A calibrator whose state is the list of accepted images: `initGeometry` succeeds
on image 2, `addImage` accepts the images with an even identifier. -/
def exampleCalibrator : CameraCalibrator (List Nat) where
  initGeometry := fun s image => (decide (image = 2), s)
  addImage := fun s image _ => if image % 2 = 0 then s ++ [image] else s
  numObservations := fun s => s.length

/-- A bag with three images on the topic `cam` and one message of another topic. -/
def exampleBag : List MessageInstance :=
  [⟨"cam", 1, 10⟩, ⟨"imu", 0, 15⟩, ⟨"cam", 2, 20⟩, ⟨"cam", 3, 30⟩]

/-- A parameter memory in binary64: every design variable holds `L = 1` and zeros. -/
def unitMem : Nat → Fin 11 → Double :=
  fun _ => ![1, 0, 0, 0, 0, 0, 0, 0, 0, 0, 0]

/-- A binary64 steering term with `v_oo = (x, 0, 0)`, `om_oo = (0, 0, z)`, input `0`,
covariance `q`, no design variables in the expressions, parameters at address 5. -/
def doubleTerm (x z q : Double) : ErrorTermSteering Double :=
  ErrorTermSteering.construct ⟨![x, 0, 0], []⟩ ⟨![0, 0, z], []⟩ 5 ![0] !![q]

/-- A rank deficient system with one row and two columns: only the sum of the two
unknowns is observed. -/
def exampleSystem : LinearSolver.System ℚ 1 2 where
  J := fun _ _ => some 1
  b := fun _ => some 1

/-- A factorizer result for `exampleSystem`: rank 1, minimum norm update. -/
def exampleFactorize : LinearSolver.System ℚ 1 2 → Option (LinearSolver.Factorization ℚ 2) :=
  fun _ => some ⟨1, ![1 / 2, 1 / 2]⟩

end aslam.calibration

/-! # Theorems -/

namespace aslam.calibration

open ErrorTermSteering

/-! ## Residual and Jacobians -/

/-- Derivative of one coordinate of a vector in which coordinate `i` is the variable. -/
theorem hasDerivAt_update_apply {n : Nat} (p : Fin n → ℝ) (i j : Fin n) (x : ℝ) :
    HasDerivAt (fun y => Function.update p i y j) (if j = i then 1 else 0) x := by
  by_cases h : j = i
  · subst h
    simpa using hasDerivAt_id x
  · simpa [h, Function.update_noteq h] using hasDerivAt_const x (p j)

/-- Chain rule for the unwrapped steering residual along a curve of parameters and
velocities. -/
theorem hasDerivAt_unwrappedError (P : ℝ → Fin 11 → ℝ) (V O : ℝ → Fin 3 → ℝ)
    (odo : Fin 1 → ℝ) (dP : Fin 11 → ℝ) (dV dO : Fin 3 → ℝ) (x : ℝ)
    (hP : ∀ j, HasDerivAt (fun y => P y j) (dP j) x)
    (hV : ∀ j, HasDerivAt (fun y => V y j) (dV j) x)
    (hO : ∀ j, HasDerivAt (fun y => O y j) (dO j) x)
    (hv : V x 0 ≠ 0) :
    HasDerivAt (fun y => unwrappedError Real.arctan (P y) (V y) (O y) odo)
      (dP 3 + dP 4 * odo 0 + dP 5 * odo 0 * odo 0 + dP 6 * odo 0 * odo 0 * odo 0
        - (1 / (1 + (P x 0 * O x 2 / V x 0) ^ 2)
            * (((dP 0 * O x 2 + P x 0 * dO 2) * V x 0 - P x 0 * O x 2 * dV 0) / V x 0 ^ 2))) x := by
  unfold unwrappedError
  have h1 := (((hP 0).mul (hO 2)).div (hV 0) hv).arctan
  have h2 := ((((hP 3).add ((hP 4).mul_const (odo 0))).add
    (((hP 5).mul_const (odo 0)).mul_const (odo 0))).add
    ((((hP 6).mul_const (odo 0)).mul_const (odo 0)).mul_const (odo 0))).sub h1
  exact h2

/-- The denominator of the Jacobians does not vanish when `v_oo_x` does not. -/
theorem sDenom_expr_ne_zero (L om v : ℝ) (hv : v ≠ 0) : v * v + L * om * (L * om) ≠ 0 := by
  have := mul_self_pos.mpr hv
  nlinarith [mul_self_nonneg (L * om)]

/-- Partial derivatives of the unwrapped residual with respect to the parameters. -/
theorem hasDerivAt_params (p : Fin 11 → ℝ) (v o : Fin 3 → ℝ) (odo : Fin 1 → ℝ)
    (hv : v 0 ≠ 0) (i : Fin 11) :
    HasDerivAt (fun y => unwrappedError Real.arctan (Function.update p i y) v o odo)
      ((steeringJacobians p v o odo).Ht 0 i) (p i) := by
  have h := hasDerivAt_unwrappedError (fun y => Function.update p i y)
    (fun _ => v) (fun _ => o) odo (fun j => if j = i then 1 else 0) 0 0 (p i)
    (fun j => hasDerivAt_update_apply _ i j _) (fun j => hasDerivAt_const _ _)
    (fun j => hasDerivAt_const _ _) hv
  convert h using 1
  simp only [steeringJacobians, sDenom, assign, Function.update_eq_self]
  have hd := sDenom_expr_ne_zero (p 0) (o 2) (v 0) hv
  fin_cases i <;> simp [Function.update] <;> field_simp <;> ring

/-- Partial derivatives of the unwrapped residual with respect to `v_oo`. -/
theorem hasDerivAt_v_oo (p : Fin 11 → ℝ) (v o : Fin 3 → ℝ) (odo : Fin 1 → ℝ)
    (hv : v 0 ≠ 0) (i : Fin 3) :
    HasDerivAt (fun y => unwrappedError Real.arctan p (Function.update v i y) o odo)
      ((steeringJacobians p v o odo).Hv 0 i) (v i) := by
  have h := hasDerivAt_unwrappedError (fun _ => p)
    (fun y => Function.update v i y) (fun _ => o) odo 0 (fun j => if j = i then 1 else 0) 0 (v i)
    (fun j => hasDerivAt_const _ _) (fun j => hasDerivAt_update_apply _ i j _)
    (fun j => hasDerivAt_const _ _) (by simpa using hv)
  convert h using 1
  simp only [steeringJacobians, sDenom, assign, Function.update_eq_self]
  have hd := sDenom_expr_ne_zero (p 0) (o 2) (v 0) hv
  fin_cases i <;> simp [Function.update] <;> field_simp <;> ring

/-- Partial derivatives of the unwrapped residual with respect to `om_oo`. -/
theorem hasDerivAt_om_oo (p : Fin 11 → ℝ) (v o : Fin 3 → ℝ) (odo : Fin 1 → ℝ)
    (hv : v 0 ≠ 0) (i : Fin 3) :
    HasDerivAt (fun y => unwrappedError Real.arctan p v (Function.update o i y) odo)
      ((steeringJacobians p v o odo).Ho 0 i) (o i) := by
  have h := hasDerivAt_unwrappedError (fun _ => p)
    (fun _ => v) (fun y => Function.update o i y) odo 0 0 (fun j => if j = i then 1 else 0) (o i)
    (fun j => hasDerivAt_const _ _) (fun j => hasDerivAt_const _ _)
    (fun j => hasDerivAt_update_apply _ i j _) hv
  convert h using 1
  simp only [steeringJacobians, sDenom, assign, Function.update_eq_self]
  have hd := sDenom_expr_ne_zero (p 0) (o 2) (v 0) hv
  fin_cases i <;> simp [Function.update] <;> field_simp <;> ring

/-- The entries of the three Jacobians, over any field. -/
theorem steeringJacobians_entries {K : Type} [Field K] (p : Fin 11 → K) (v o : Fin 3 → K)
    (odo : Fin 1 → K) :
    (steeringJacobians p v o odo).Ht 0 0 = -v 0 * o 2 / (v 0 ^ 2 + (p 0 * o 2) ^ 2)
    ∧ (steeringJacobians p v o odo).Ht 0 3 = 1
    ∧ (steeringJacobians p v o odo).Ht 0 4 = odo 0
    ∧ (steeringJacobians p v o odo).Ht 0 5 = odo 0 ^ 2
    ∧ (steeringJacobians p v o odo).Ht 0 6 = odo 0 ^ 3
    ∧ (steeringJacobians p v o odo).Hv 0 0 = p 0 * o 2 / (v 0 ^ 2 + (p 0 * o 2) ^ 2)
    ∧ (steeringJacobians p v o odo).Ho 0 2 = -p 0 * v 0 / (v 0 ^ 2 + (p 0 * o 2) ^ 2)
    ∧ (∀ i : Fin 11, i ≠ 0 → i ≠ 3 → i ≠ 4 → i ≠ 5 → i ≠ 6 →
        (steeringJacobians p v o odo).Ht 0 i = 0)
    ∧ (∀ i : Fin 3, i ≠ 0 → (steeringJacobians p v o odo).Hv 0 i = 0)
    ∧ (∀ i : Fin 3, i ≠ 2 → (steeringJacobians p v o odo).Ho 0 i = 0) := by
  refine ⟨?_, ?_, ?_, ?_, ?_, ?_, ?_, ?_, ?_, ?_⟩
  · simp [steeringJacobians, sDenom, assign, Function.update, pow_two]
  · simp [steeringJacobians, sDenom, assign, Function.update]
  · simp [steeringJacobians, sDenom, assign, Function.update]
  · simp [steeringJacobians, sDenom, assign, Function.update, pow_two]
  · simp [steeringJacobians, sDenom, assign, Function.update, pow_succ]
  · simp [steeringJacobians, sDenom, assign, Function.update, pow_two]
  · simp [steeringJacobians, sDenom, assign, Function.update, pow_two]
  · intro i h0 h3 h4 h5 h6
    simp [steeringJacobians, sDenom, assign, Function.update, h0, h3, h4, h5, h6]
  · intro i h0
    simp [steeringJacobians, sDenom, assign, Function.update, h0]
  · intro i h2
    simp [steeringJacobians, sDenom, assign, Function.update, h2]

/-- The entries of the three Jacobians in the arithmetic of the code, whatever that
arithmetic is. -/
theorem steeringJacobians_entries_arith {D : Type} [Zero D] [One D] [Neg D] [Add D] [Mul D]
    [Div D] (p : Fin 11 → D) (v o : Fin 3 → D) (odo : Fin 1 → D) :
    (steeringJacobians p v o odo).Ht 0 0 = -v 0 * o 2 / sDenom p v o
    ∧ (steeringJacobians p v o odo).Ht 0 3 = 1
    ∧ (steeringJacobians p v o odo).Ht 0 4 = odo 0
    ∧ (steeringJacobians p v o odo).Ht 0 5 = odo 0 * odo 0
    ∧ (steeringJacobians p v o odo).Ht 0 6 = odo 0 * odo 0 * odo 0
    ∧ (steeringJacobians p v o odo).Hv 0 0 = p 0 * o 2 / sDenom p v o
    ∧ (steeringJacobians p v o odo).Ho 0 2 = -p 0 * v 0 / sDenom p v o
    ∧ (∀ i : Fin 11, i ≠ 0 → i ≠ 3 → i ≠ 4 → i ≠ 5 → i ≠ 6 →
        (steeringJacobians p v o odo).Ht 0 i = 0)
    ∧ (∀ i : Fin 3, i ≠ 0 → (steeringJacobians p v o odo).Hv 0 i = 0)
    ∧ (∀ i : Fin 3, i ≠ 2 → (steeringJacobians p v o odo).Ho 0 i = 0) := by
  refine ⟨?_, ?_, ?_, ?_, ?_, ?_, ?_, ?_, ?_, ?_⟩
  · simp [steeringJacobians, assign, Function.update]
  · simp [steeringJacobians, assign, Function.update]
  · simp [steeringJacobians, assign, Function.update]
  · simp [steeringJacobians, assign, Function.update]
  · simp [steeringJacobians, assign, Function.update]
  · simp [steeringJacobians, assign, Function.update]
  · simp [steeringJacobians, assign, Function.update]
  · intro i h0 h3 h4 h5 h6
    simp [steeringJacobians, assign, Function.update, h0, h3, h4, h5, h6]
  · intro i h0
    simp [steeringJacobians, assign, Function.update, h0]
  · intro i h2
    simp [steeringJacobians, assign, Function.update, h2]

/-- Claim C1, as amended.  In the arithmetic of the code, whatever it is (term `tD`),
`evaluateJacobiansImplementation` writes `Ht(0,0) = (-v*om)/sDenom`,
`Ht(0,3..6) = 1, s, s*s, s*s*s`, `Hv(0,0) = (L*om)/sDenom`, `Ho(0,2) = (-L*v)/sDenom`
with `sDenom = v*v + (L*om)*(L*om)`, and zero in every other entry.  Read in exact
real arithmetic (term `t`) with `v_oo_x ≠ 0`, every entry of `Ht`, `Hv`, `Ho` is the
partial derivative of the unwrapped residual of `evaluateErrorImplementation` with
respect to the matching component of the parameters, of `v_oo` and of `om_oo`, the
non-zero ones being `-v*om/(v^2 + (L*om)^2)`, `s^k`, `L*om/(v^2 + (L*om)^2)` and
`-L*v/(v^2 + (L*om)^2)`. -/
theorem jacobians_are_partial_derivatives {D : Type} [Zero D] [One D] [Neg D] [Add D]
    [Mul D] [Div D] (memD : Nat → Fin 11 → D) (tD : ErrorTermSteering D)
    (mem : Nat → Fin 11 → ℝ) (t : ErrorTermSteering ℝ)
    (hv : t.v_oo.toValue 0 ≠ 0) :
    ((evaluateJacobiansImplementation memD tD).Ht 0 0
        = -tD.v_oo.toValue 0 * tD.om_oo.toValue 2
            / sDenom (memD tD.params) tD.v_oo.toValue tD.om_oo.toValue
      ∧ (evaluateJacobiansImplementation memD tD).Ht 0 3 = 1
      ∧ (evaluateJacobiansImplementation memD tD).Ht 0 4 = tD.odo 0
      ∧ (evaluateJacobiansImplementation memD tD).Ht 0 5 = tD.odo 0 * tD.odo 0
      ∧ (evaluateJacobiansImplementation memD tD).Ht 0 6 = tD.odo 0 * tD.odo 0 * tD.odo 0
      ∧ (evaluateJacobiansImplementation memD tD).Hv 0 0
        = memD tD.params 0 * tD.om_oo.toValue 2
            / sDenom (memD tD.params) tD.v_oo.toValue tD.om_oo.toValue
      ∧ (evaluateJacobiansImplementation memD tD).Ho 0 2
        = -memD tD.params 0 * tD.v_oo.toValue 0
            / sDenom (memD tD.params) tD.v_oo.toValue tD.om_oo.toValue
      ∧ (∀ i : Fin 11, i ≠ 0 → i ≠ 3 → i ≠ 4 → i ≠ 5 → i ≠ 6 →
          (evaluateJacobiansImplementation memD tD).Ht 0 i = 0)
      ∧ (∀ i : Fin 3, i ≠ 0 → (evaluateJacobiansImplementation memD tD).Hv 0 i = 0)
      ∧ (∀ i : Fin 3, i ≠ 2 → (evaluateJacobiansImplementation memD tD).Ho 0 i = 0))
    ∧ (∀ i : Fin 11, HasDerivAt
        (fun y => unwrappedError Real.arctan (Function.update (mem t.params) i y)
          t.v_oo.toValue t.om_oo.toValue t.odo)
        ((evaluateJacobiansImplementation mem t).Ht 0 i) (mem t.params i))
    ∧ (∀ i : Fin 3, HasDerivAt
        (fun y => unwrappedError Real.arctan (mem t.params)
          (Function.update t.v_oo.toValue i y) t.om_oo.toValue t.odo)
        ((evaluateJacobiansImplementation mem t).Hv 0 i) (t.v_oo.toValue i))
    ∧ (∀ i : Fin 3, HasDerivAt
        (fun y => unwrappedError Real.arctan (mem t.params)
          t.v_oo.toValue (Function.update t.om_oo.toValue i y) t.odo)
        ((evaluateJacobiansImplementation mem t).Ho 0 i) (t.om_oo.toValue i))
    ∧ (evaluateJacobiansImplementation mem t).Ht 0 0
        = -t.v_oo.toValue 0 * t.om_oo.toValue 2
            / (t.v_oo.toValue 0 ^ 2 + (mem t.params 0 * t.om_oo.toValue 2) ^ 2)
    ∧ (evaluateJacobiansImplementation mem t).Ht 0 3 = 1
    ∧ (evaluateJacobiansImplementation mem t).Ht 0 4 = t.odo 0
    ∧ (evaluateJacobiansImplementation mem t).Ht 0 5 = t.odo 0 ^ 2
    ∧ (evaluateJacobiansImplementation mem t).Ht 0 6 = t.odo 0 ^ 3
    ∧ (evaluateJacobiansImplementation mem t).Hv 0 0
        = mem t.params 0 * t.om_oo.toValue 2
            / (t.v_oo.toValue 0 ^ 2 + (mem t.params 0 * t.om_oo.toValue 2) ^ 2)
    ∧ (evaluateJacobiansImplementation mem t).Ho 0 2
        = -mem t.params 0 * t.v_oo.toValue 0
            / (t.v_oo.toValue 0 ^ 2 + (mem t.params 0 * t.om_oo.toValue 2) ^ 2)
    ∧ (∀ i : Fin 11, i ≠ 0 → i ≠ 3 → i ≠ 4 → i ≠ 5 → i ≠ 6 →
        (evaluateJacobiansImplementation mem t).Ht 0 i = 0)
    ∧ (∀ i : Fin 3, i ≠ 0 → (evaluateJacobiansImplementation mem t).Hv 0 i = 0)
    ∧ (∀ i : Fin 3, i ≠ 2 → (evaluateJacobiansImplementation mem t).Ho 0 i = 0) := by
  refine ⟨steeringJacobians_entries_arith (memD tD.params) tD.v_oo.toValue tD.om_oo.toValue
      tD.odo,
    fun i => hasDerivAt_params _ _ _ _ hv i, fun i => hasDerivAt_v_oo _ _ _ _ hv i,
    fun i => hasDerivAt_om_oo _ _ _ _ hv i, ?_⟩
  exact steeringJacobians_entries (mem t.params) t.v_oo.toValue t.om_oo.toValue t.odo

/-- Instance of C1 at `exampleTerm` read in the real numbers: the derivative of the
residual in the wheel base `L` is the entry `Ht(0,0)`. -/
theorem jacobians_are_partial_derivatives_witness :
    (exampleTerm ℝ).v_oo.toValue 0 ≠ 0
    ∧ HasDerivAt
        (fun y => unwrappedError Real.arctan
          (Function.update (exampleMem ℝ (exampleTerm ℝ).params) 0 y)
          (exampleTerm ℝ).v_oo.toValue (exampleTerm ℝ).om_oo.toValue (exampleTerm ℝ).odo)
        ((evaluateJacobiansImplementation (exampleMem ℝ) (exampleTerm ℝ)).Ht 0 0)
        (exampleMem ℝ (exampleTerm ℝ).params 0) :=
  ⟨by simp [exampleTerm, construct, setInvR, setDesignVariablesIterator],
   (jacobians_are_partial_derivatives unitMem (doubleTerm 1 1 1) (exampleMem ℝ) (exampleTerm ℝ)
      (by simp [exampleTerm, construct, setInvR, setDesignVariablesIterator])).2.1 0⟩

/-- Claim C1 fails in binary64 arithmetic.  With `L = 1`, `om_oo_z = 0` and
`v_oo_x = 2^-600 ≠ 0` the square `v_oo_x * v_oo_x` underflows to zero, `sDenom` is
zero, and the code writes `Ht(0,0) = NaN`, `Hv(0,0) = NaN`, `Ho(0,2) = -inf`, none of
which is a number; with `v_oo_x = 2^600` the square overflows and the code writes
`Ho(0,2) = -0`. -/
theorem jacobians_not_numbers_at_underflow :
    (doubleTerm (Double.twoPow (-600)) 0 1).v_oo.toValue 0 ≠ 0
    ∧ (evaluateJacobiansImplementation unitMem (doubleTerm (Double.twoPow (-600)) 0 1)).Ht 0 0
        = Double.nan
    ∧ (evaluateJacobiansImplementation unitMem (doubleTerm (Double.twoPow (-600)) 0 1)).Hv 0 0
        = Double.nan
    ∧ (evaluateJacobiansImplementation unitMem (doubleTerm (Double.twoPow (-600)) 0 1)).Ho 0 2
        = Double.inf true
    ∧ ((evaluateJacobiansImplementation unitMem
          (doubleTerm (Double.twoPow (-600)) 0 1)).Ht 0 0).value = none
    ∧ (doubleTerm (Double.twoPow 600) 0 1).v_oo.toValue 0 ≠ 0
    ∧ (evaluateJacobiansImplementation unitMem (doubleTerm (Double.twoPow 600) 0 1)).Ho 0 2
        = Double.finite true 0 (-1074) := by
  decide!

end aslam.calibration

namespace aslam.calibration

open ErrorTermSteering

/-! ## Residual storage, cost and information matrix -/

/-- Claim C4, evaluated at its failing input.  The term constructed with covariance
`2` and then given the covariance `4` by `setCovariance` reports `4` from
`getCovariance` while its information matrix is still `1/2`: their product is `2`,
not `1`, and the cost returned by `evaluateErrorImplementation` still uses `1/2`. -/
theorem setCovariance_leaves_information_matrix :
    ((exampleTerm ℚ).setCovariance !![4]).getCovariance = !![4]
    ∧ ((exampleTerm ℚ).setCovariance !![4]).invR = !![1 / 2]
    ∧ ((exampleTerm ℚ).setCovariance !![4]).invR
        * ((exampleTerm ℚ).setCovariance !![4]).getCovariance = !![2]
    ∧ ((exampleTerm ℚ).setCovariance !![4]).invR
        * ((exampleTerm ℚ).setCovariance !![4]).getCovariance ≠ 1
    ∧ ((exampleTerm ℚ).setCovariance !![4]).invR
        ≠ inverse ((exampleTerm ℚ).setCovariance !![4]).getCovariance := by
  have h1 : ((exampleTerm ℚ).setCovariance !![4]).invR = !![1 / 2] := by
    ext i j
    have hi : i = 0 := Subsingleton.elim _ _
    have hj : j = 0 := Subsingleton.elim _ _
    subst hi hj
    simp [exampleTerm, setCovariance, construct, setInvR, setDesignVariablesIterator, inverse]
  have h2 : ((exampleTerm ℚ).setCovariance !![4]).getCovariance = !![4] := rfl
  refine ⟨h2, h1, ?_, ?_, ?_⟩
  · rw [h1, h2]
    ext i j
    have hi : i = 0 := Subsingleton.elim _ _
    have hj : j = 0 := Subsingleton.elim _ _
    subst hi hj
    simp [Matrix.mul_apply]
    norm_num
  · rw [h1, h2]
    intro h
    have := congrFun (congrFun h 0) 0
    simp [Matrix.mul_apply] at this
    norm_num at this
  · rw [h1, h2]
    intro h
    have := congrFun (congrFun h 0) 0
    norm_num [inverse] at this

/-! ## Registered design variables -/

/-- Membership in a set after an insertion. -/
theorem mem_setInsert (dv : DesignVariableSet) (d x : Nat) :
    x ∈ setInsert dv d ↔ x ∈ dv ∨ x = d := by
  unfold setInsert
  split
  · constructor
    · exact Or.inl
    · rintro (h | h)
      · exact h
      · subst h; assumption
  · simp

/-- An insertion keeps a set free of repetitions. -/
theorem nodup_setInsert (dv : DesignVariableSet) (d : Nat) (h : dv.Nodup) :
    (setInsert dv d).Nodup := by
  unfold setInsert
  split
  · exact h
  · rename_i hd
    rw [List.nodup_append]
    refine ⟨h, List.nodup_singleton d, ?_⟩
    intro a ha hb
    rw [List.mem_singleton] at hb
    subst hb
    exact hd ha

/-- Membership in a set after the leaves of an expression were inserted. -/
theorem mem_foldl_setInsert (l : List Nat) (dv : DesignVariableSet) (x : Nat) :
    x ∈ l.foldl setInsert dv ↔ x ∈ dv ∨ x ∈ l := by
  induction l generalizing dv with
  | nil => simp
  | cons a l ih =>
    rw [List.foldl_cons, ih, mem_setInsert, List.mem_cons]
    tauto

/-- Inserting the leaves of an expression keeps a set free of repetitions. -/
theorem nodup_foldl_setInsert (l : List Nat) (dv : DesignVariableSet) (h : dv.Nodup) :
    (l.foldl setInsert dv).Nodup := by
  induction l generalizing dv with
  | nil => exact h
  | cons a l ih => exact ih _ (nodup_setInsert dv a h)

/-- Claim C5.  The design variables registered by the constructor are exactly the
design variables of `v_oo`, those of `om_oo` and `params`; each of them is registered
exactly once, `params` is among them, and the registered collection is not empty. -/
theorem construct_registers_each_design_variable_once {K : Type} [Field K]
    (v_oo om_oo : EuclideanExpression K) (params : Nat) (odo : Fin 1 → K)
    (Q : Matrix (Fin 1) (Fin 1) K) :
    (∀ d, d ∈ (construct v_oo om_oo params odo Q).designVariables
        ↔ d ∈ v_oo.leaves ∨ d ∈ om_oo.leaves ∨ d = params)
    ∧ (construct v_oo om_oo params odo Q).designVariables.Nodup
    ∧ (∀ d, d ∈ (construct v_oo om_oo params odo Q).designVariables →
        (construct v_oo om_oo params odo Q).designVariables.count d = 1)
    ∧ params ∈ (construct v_oo om_oo params odo Q).designVariables
    ∧ (construct v_oo om_oo params odo Q).designVariables ≠ [] := by
  have hmem : ∀ d, d ∈ (construct v_oo om_oo params odo Q).designVariables
      ↔ d ∈ v_oo.leaves ∨ d ∈ om_oo.leaves ∨ d = params := by
    intro d
    simp only [construct, setDesignVariablesIterator, setInvR,
      EuclideanExpression.getDesignVariables, mem_setInsert, mem_foldl_setInsert]
    simp [or_assoc]
  have hnd : (construct v_oo om_oo params odo Q).designVariables.Nodup := by
    simp only [construct, setDesignVariablesIterator, setInvR,
      EuclideanExpression.getDesignVariables]
    exact nodup_setInsert _ _
      (nodup_foldl_setInsert _ _ (nodup_foldl_setInsert _ _ List.nodup_nil))
  have hp : params ∈ (construct v_oo om_oo params odo Q).designVariables :=
    (hmem params).mpr (Or.inr (Or.inr rfl))
  refine ⟨hmem, hnd, ?_, hp, ?_⟩
  · intro d hd
    exact List.count_eq_one_of_mem hnd hd
  · exact List.ne_nil_of_mem hp

/-- Instance of C5 at `exampleTerm`, whose expressions share the design variable 7
and repeat 4: the registered design variables are 4, 7, 9 and the parameters 5, and
the registered variable 7 is counted once. -/
theorem construct_registers_each_design_variable_once_witness :
    (exampleTerm ℚ).designVariables = [4, 7, 9, 5]
    ∧ (exampleTerm ℚ).designVariables.count 7 = 1 :=
  ⟨by decide,
   (construct_registers_each_design_variable_once ⟨![1, 0, 0], [4, 7, 4]⟩
      ⟨![0, 0, 1], [7, 9]⟩ 5 ![3] (!![2] : Matrix (Fin 1) (Fin 1) ℚ)).2.2.1 7 (by decide)⟩

end aslam.calibration

namespace aslam.calibration

open ErrorTermSteering

/-! ## The driver `main` -/

/-- The geometry loop only produces `initGeometry` events. -/
theorem initGeometryLoop_events {σ : Type} (cal : CameraCalibrator σ) (rosTopic : String)
    (ms : List MessageInstance) (s : σ) :
    ∀ e ∈ (initGeometryLoop cal rosTopic ms s).2, ∃ image, e = Event.initGeometry image := by
  induction ms generalizing s with
  | nil => simp [initGeometryLoop]
  | cons m ms ih =>
    intro e he
    unfold initGeometryLoop at he
    by_cases ht : m.topic = rosTopic
    · by_cases hr : (cal.initGeometry s m.image).1 = true
      · simp only [ht, hr, if_true, List.mem_singleton] at he
        exact ⟨_, he⟩
      · simp only [ht, hr, if_true, Bool.false_eq_true, if_false, List.mem_cons] at he
        rcases he with he | he
        · exact ⟨_, he⟩
        · exact ih _ e he
    · simp only [ht, if_false] at he
      exact ih _ e he

/-- The events of one pass through the body of the processing loop. -/
theorem processMessage_events {σ : Type} (cal : CameraCalibrator σ) (config : Config)
    (m : MessageInstance) (s : σ) :
    (∀ e ∈ (processMessage cal config m s).2, e.isFinalRead = false ∧ e ≠ Event.processBatch)
    ∧ (processMessage cal config m s).2.filterMap Event.addImageArgs
        = if m.topic = config.rosTopic then [(m.image, m.stamp)] else [] := by
  unfold processMessage
  by_cases ht : m.topic = config.rosTopic
  · by_cases hs : config.saveEstimatorImages = true
    · by_cases hn : cal.numObservations (cal.addImage s m.image m.stamp) = cal.numObservations s
      · simp [ht, hs, hn, Event.isFinalRead, Event.addImageArgs]
      · simp [ht, hs, hn, Event.isFinalRead, Event.addImageArgs]
    · simp [ht, hs, Event.isFinalRead, Event.addImageArgs]
  · simp [ht]

/-- The events of the processing loop: no final read, no `processBatch`, and one
`addImage` per message of the configured topic, in order. -/
theorem processLoop_events {σ : Type} (cal : CameraCalibrator σ) (config : Config)
    (ms : List MessageInstance) (s : σ) :
    (∀ e ∈ (processLoop cal config ms s).2, e.isFinalRead = false ∧ e ≠ Event.processBatch)
    ∧ (processLoop cal config ms s).2.filterMap Event.addImageArgs
        = (ms.filter (fun m => decide (m.topic = config.rosTopic))).map
            (fun m => (m.image, m.stamp)) := by
  induction ms generalizing s with
  | nil => simp [processLoop]
  | cons m ms ih =>
    have hm := processMessage_events cal config m s
    have hr := ih (processMessage cal config m s).1
    constructor
    · intro e he
      simp only [processLoop, List.mem_append] at he
      rcases he with he | he
      · exact hm.1 e he
      · exact hr.1 e he
    · simp only [processLoop, List.filterMap_append, hm.2, hr.2]
      by_cases ht : m.topic = config.rosTopic
      · simp [ht, List.filter_cons]
      · simp [ht, List.filter_cons]

/-- The view over the configured topic holds exactly the messages of that topic. -/
theorem view_filter (bag : List MessageInstance) (rosTopic : String) :
    (view bag [rosTopic]).filter (fun m => decide (m.topic = rosTopic))
      = bag.filter (fun m => decide (m.topic = rosTopic)) := by
  unfold view
  rw [List.filter_filter]
  congr 1
  funext m
  simp

/-- Claim C6.  In a run of `main` with two arguments (`argc = 3`), over any bag,
configuration and calibrator, the events split as `pre ++ processBatch :: post`
with no other `processBatch`: it is called exactly once; the `addImage` calls of
`pre` are, in order, the messages of the configured topic in the bag; `post` holds
no `addImage`; and `pre` holds no read of a final parameter, unobservable basis,
cost or statistic. -/
theorem main_processBatch_once_after_all_images {σ : Type} (cal : CameraCalibrator σ) (s0 : σ)
    (config : Config) (bag : List MessageInstance) (argv : List String) :
    ∃ pre post : List Event,
      (main cal s0 config bag 3 argv).2 = pre ++ Event.processBatch :: post
      ∧ Event.processBatch ∉ pre ∧ Event.processBatch ∉ post
      ∧ (main cal s0 config bag 3 argv).2.count Event.processBatch = 1
      ∧ pre.filterMap Event.addImageArgs
          = (bag.filter (fun m => decide (m.topic = config.rosTopic))).map
              (fun m => (m.image, m.stamp))
      ∧ (∀ e ∈ post, e.addImageArgs = none)
      ∧ (∀ e ∈ pre, e.isFinalRead = false) := by
  have h1 := initGeometryLoop_events cal config.rosTopic (view bag [config.rosTopic]) s0
  have h2 := processLoop_events cal config (view bag [config.rosTopic])
    (initGeometryLoop cal config.rosTopic (view bag [config.rosTopic]) s0).1
  have hpre : Event.processBatch ∉
      [Event.loadXml (argv.getD 2 ""), Event.openBag (argv.getD 1 "")]
      ++ (initGeometryLoop cal config.rosTopic (view bag [config.rosTopic]) s0).2
      ++ (processLoop cal config (view bag [config.rosTopic])
          (initGeometryLoop cal config.rosTopic (view bag [config.rosTopic]) s0).1).2 := by
    intro hmem
    simp only [List.mem_append, List.mem_cons, List.mem_singleton, List.not_mem_nil,
      or_false] at hmem
    rcases hmem with ((h | h) | h) | h
    · cases h
    · cases h
    · obtain ⟨i, hi⟩ := h1 _ h
      cases hi
    · exact (h2.1 _ h).2 rfl
  have hpost : Event.processBatch ∉ report config := by
    cases hc : config.outputErrors <;> simp [report, hc]
  have hmain : (main cal s0 config bag 3 argv).2
      = ([Event.loadXml (argv.getD 2 ""), Event.openBag (argv.getD 1 "")]
      ++ (initGeometryLoop cal config.rosTopic (view bag [config.rosTopic]) s0).2
      ++ (processLoop cal config (view bag [config.rosTopic])
          (initGeometryLoop cal config.rosTopic (view bag [config.rosTopic]) s0).1).2)
      ++ Event.processBatch :: report config := by
    simp [main]
  refine ⟨_, report config, hmain, hpre, hpost, ?_, ?_, ?_, ?_⟩
  · rw [hmain, List.count_append, List.count_cons_self, List.count_eq_zero_of_not_mem hpre,
      List.count_eq_zero_of_not_mem hpost]
  · have hinit : (initGeometryLoop cal config.rosTopic (view bag [config.rosTopic]) s0).2.filterMap
        Event.addImageArgs = [] := by
      rw [List.filterMap_eq_nil_iff]
      intro e he
      obtain ⟨i, hi⟩ := h1 e he
      subst hi
      rfl
    rw [List.filterMap_append, List.filterMap_append, hinit, h2.2, view_filter]
    simp [Event.addImageArgs]
  · cases hc : config.outputErrors <;> simp [report, hc, Event.addImageArgs]
  · intro e hmem
    simp only [List.mem_append, List.mem_cons, List.mem_singleton, List.not_mem_nil,
      or_false] at hmem
    rcases hmem with ((h | h) | h) | h
    · subst h; rfl
    · subst h; rfl
    · obtain ⟨i, hi⟩ := h1 _ h
      subst hi; rfl
    · exact (h2.1 _ h).1

/-! ## The linear solver -/

/-- Claim C7.  `solveSystem` reports through its boolean result: it returns `false`,
leaving `x` alone, for a system without columns, for a system with a non-finite
entry and when the factorizer fails; for a non-empty finite system the factorizer
handles, it returns `true` with the factorizer update, whatever the rank. -/
theorem solveSystem_reports_failure {K : Type} {m n : Nat}
    (factorize : LinearSolver.System K m n → Option (LinearSolver.Factorization K n))
    (s : LinearSolver.System K m n) (x : Fin n → K) :
    (n = 0 → LinearSolver.solveSystem factorize s x = (false, x))
    ∧ (s.allFinite = false → LinearSolver.solveSystem factorize s x = (false, x))
    ∧ (factorize s = none → LinearSolver.solveSystem factorize s x = (false, x))
    ∧ (∀ f : LinearSolver.Factorization K n, n ≠ 0 → s.allFinite = true →
        factorize s = some f → f.rank < n →
        LinearSolver.solveSystem factorize s x = (true, f.update)) := by
  refine ⟨?_, ?_, ?_, ?_⟩
  · intro hn
    simp [LinearSolver.solveSystem, hn]
  · intro hf
    by_cases hn : n = 0 <;> simp [LinearSolver.solveSystem, hn, hf]
  · intro hf
    by_cases hn : n = 0
    · simp [LinearSolver.solveSystem, hn]
    · cases ha : s.allFinite <;> simp [LinearSolver.solveSystem, hn, ha, hf]
  · intro f hn ha hf _
    simp [LinearSolver.solveSystem, hn, ha, hf]

/-- Instance of C7 at `exampleSystem`, of rank 1 with two columns: the solver
returns `true` and the update of the factorizer. -/
theorem solveSystem_reports_failure_witness :
    LinearSolver.solveSystem exampleFactorize exampleSystem ![0, 0]
      = (true, ![1 / 2, 1 / 2]) :=
  (solveSystem_reports_failure exampleFactorize exampleSystem ![0, 0]).2.2.2
    ⟨1, ![1 / 2, 1 / 2]⟩ (by decide) (by decide) rfl (by decide)

/-- The squared norm of `J * v` is the quadratic form of `J^T * J` at `v`. -/
theorem dotProduct_mulVec_self {K : Type} [Field K] {m n : Nat}
    (J : Matrix (Fin m) (Fin n) K) (v : Fin n → K) :
    Matrix.dotProduct (Matrix.mulVec J v) (Matrix.mulVec J v)
      = Matrix.dotProduct v (Matrix.mulVec (Matrix.transpose J * J) v) := by
  rw [← Matrix.mulVec_mulVec, Matrix.mulVec_transpose, Matrix.dotProduct_mulVec,
    Matrix.dotProduct_comm]

/-- Claim C8.  The scalar returned by `rhsJtJrhs` for the currently built system is
the quadratic form `dx^T * J^T * J * dx` at the update `dx` of that system; when
`solveSystem` succeeds with the factorization `f`, whatever vector it was handed,
that update is the vector `solveSystem` returns and the scalar is the quadratic
form at `f.update`. -/
theorem rhsJtJrhs_eq_quadratic_form {K : Type} [Field K] {m n : Nat}
    (factorize : LinearSolver.System K m n → Option (LinearSolver.Factorization K n))
    (s : LinearSolver.System K m n) :
    LinearSolver.rhsJtJrhs factorize s
      = LinearSolver.computeCovarianceQuadraticForm s.jacobian
          (LinearSolver.update factorize s)
    ∧ (∀ (f : LinearSolver.Factorization K n) (x : Fin n → K),
        LinearSolver.solveSystem factorize s x = (true, f.update) →
        LinearSolver.update factorize s = (LinearSolver.solveSystem factorize s x).2
        ∧ LinearSolver.rhsJtJrhs factorize s
          = LinearSolver.computeCovarianceQuadraticForm s.jacobian
              (LinearSolver.solveSystem factorize s x).2) := by
  have h1 : LinearSolver.rhsJtJrhs factorize s
      = LinearSolver.computeCovarianceQuadraticForm s.jacobian
          (LinearSolver.update factorize s) := by
    simp only [LinearSolver.rhsJtJrhs, LinearSolver.computeCovarianceQuadraticForm]
    exact dotProduct_mulVec_self _ _
  refine ⟨h1, ?_⟩
  intro f x hx
  have hu : LinearSolver.update factorize s = (LinearSolver.solveSystem factorize s x).2 := by
    unfold LinearSolver.update
    unfold LinearSolver.solveSystem at hx ⊢
    by_cases hn : n = 0
    · simp [hn] at hx
    · cases ha : s.allFinite
      · simp [hn, ha] at hx
      · cases hf : factorize s with
        | none => simp [hn, ha, hf] at hx
        | some g => simp [hn, ha, hf]
  exact ⟨hu, by rw [h1, hu]⟩

/-- Instance of C8 at `exampleSystem`: the solver succeeds with the update
`(1/2, 1/2)`, `J * dx = 1`, and `rhsJtJrhs` returns `1`. -/
theorem rhsJtJrhs_eq_quadratic_form_witness :
    LinearSolver.solveSystem exampleFactorize exampleSystem ![7, 7] = (true, ![1 / 2, 1 / 2])
    ∧ LinearSolver.rhsJtJrhs exampleFactorize exampleSystem
      = LinearSolver.computeCovarianceQuadraticForm exampleSystem.jacobian ![1 / 2, 1 / 2] :=
  ⟨rfl, ((rhsJtJrhs_eq_quadratic_form exampleFactorize exampleSystem).2
      ⟨1, ![1 / 2, 1 / 2]⟩ ![7, 7] rfl).2⟩

/-! ## Ownership of the parameter design variable -/

/-- Claim C9.  For a term `o` at address `other`: copy construction at `self`
yields a term with the same `params` address, input, covariance and velocity
expressions and leaves every design variable as it was; so does the assignment
to any live term at `self`; an assignment of a term to itself leaves the world
unchanged; and destroying the term leaves every design variable as it was. -/
theorem copy_assign_destroy_keep_design_variables {K : Type} (w : World K) (self other : Nat)
    (o : ErrorTermSteering K) (ho : w.terms other = some o) :
    (∃ c, (w.copyConstruct self other).terms self = some c
        ∧ c.params = o.params ∧ c.odo = o.odo ∧ c.Q = o.Q ∧ c.v_oo = o.v_oo ∧ c.om_oo = o.om_oo)
    ∧ (w.copyConstruct self other).designVariables = w.designVariables
    ∧ (∀ t, w.terms self = some t →
        ∃ c, (w.assignOp self other).terms self = some c
          ∧ c.params = o.params ∧ c.odo = o.odo ∧ c.Q = o.Q ∧ c.v_oo = o.v_oo
          ∧ c.om_oo = o.om_oo)
    ∧ (w.assignOp self other).designVariables = w.designVariables
    ∧ w.assignOp other other = w
    ∧ (w.destroy other).designVariables = w.designVariables := by
  refine ⟨?_, ?_, ?_, ?_, ?_, rfl⟩
  · refine ⟨o.copy, ?_, rfl, rfl, rfl, rfl, rfl⟩
    simp [World.copyConstruct, ho]
  · simp [World.copyConstruct, ho]
  · intro t ht
    by_cases h : self = other
    · subst h
      refine ⟨o, ?_, rfl, rfl, rfl, rfl, rfl⟩
      simp [World.assignOp, ho]
    · refine ⟨o.copy, ?_, rfl, rfl, rfl, rfl, rfl⟩
      simp [World.assignOp, ht, ho, h, ErrorTermSteering.copy]
  · unfold World.assignOp
    cases w.terms self with
    | none => rfl
    | some t =>
      simp only [ho]
      split <;> rfl
  · simp [World.assignOp, ho]

/-- Instance of C9 at `exampleWorld`: assigning the term at address 1 to the term at
address 0 leaves the design variables of the world as they were. -/
theorem copy_assign_destroy_keep_design_variables_witness :
    exampleWorld.terms 1 = some ((exampleTerm ℚ).setInput ![8])
    ∧ (exampleWorld.assignOp 0 1).designVariables = exampleWorld.designVariables :=
  ⟨rfl, (copy_assign_destroy_keep_design_variables exampleWorld 0 1
      ((exampleTerm ℚ).setInput ![8]) rfl).2.2.2.1⟩

/-! ## Binary64 arithmetic: sums of squares -/

namespace Double

/-- With enough fuel, `bitLength` is the number of binary digits: `n < 2^b ≤ 2 * n`. -/
theorem bitLength_bounds (fuel n : Nat) (h : n ≤ fuel) :
    n < 2 ^ bitLength fuel n ∧ (n ≠ 0 → 2 ^ bitLength fuel n ≤ 2 * n) := by
  induction fuel generalizing n with
  | zero =>
    have : n = 0 := Nat.le_zero.mp h
    subst this
    simp [bitLength]
  | succ fuel ih =>
    unfold bitLength
    by_cases hn : n = 0
    · simp [hn]
    · simp only [hn, if_false]
      have hle : n / 2 ≤ fuel := by omega
      obtain ⟨h1, h2⟩ := ih (n / 2) hle
      constructor
      · rw [pow_succ]
        omega
      · intro _
        rw [pow_succ]
        by_cases h0 : n / 2 = 0
        · have hb : bitLength fuel (n / 2) = 0 := by
            rw [h0]
            cases fuel <;> simp [bitLength]
          rw [hb]
          omega
        · have := h2 h0
          omega

/-- The quantum exponent is at least `-1074`, and above that it is at most the
difference of the digit counts minus 52. -/
theorem quantum_bounds (n d : Nat) :
    -1074 ≤ quantum n d
    ∧ (quantum n d = -1074
        ∨ quantum n d ≤ (bitLength n n : Int) - (bitLength d d : Int) - 52) := by
  unfold quantum
  simp only
  split <;> omega

/-- For a value of at least `2^-1074` the mantissa before rounding is at least one. -/
theorem quantum_scaled_le (n d : Nat) (hn : n ≠ 0) (h : d ≤ n * 2 ^ 1074) :
    d * 2 ^ (quantum n d).toNat ≤ n * 2 ^ (-(quantum n d)).toNat := by
  obtain ⟨h1, h2⟩ := quantum_bounds n d
  have hbn := (bitLength_bounds n n le_rfl).2 hn
  have hbd := (bitLength_bounds d d le_rfl).1
  generalize quantum n d = e at h1 h2 ⊢
  generalize bitLength n n = bn at hbn h2
  generalize bitLength d d = bd at hbd h2
  rcases h2 with h2 | h2
  · subst h2
    simpa using h
  · by_cases he : e ≤ 0
    · have e0 : e.toNat = 0 := by omega
      rw [e0, pow_zero, mul_one]
      have hp : 2 ^ (bd + 52) ≤ 2 ^ (bn + (-e).toNat) :=
        Nat.pow_le_pow_right (by norm_num) (by omega)
      rw [pow_add, pow_add] at hp
      generalize 2 ^ (-e).toNat = X at hp ⊢
      generalize 2 ^ bd = Y at hp hbd
      generalize 2 ^ bn = Z at hp hbn
      have hX : 0 < X ∨ X = 0 := by omega
      nlinarith
    · have e0 : (-e).toNat = 0 := by omega
      rw [e0, pow_zero, mul_one]
      have hp : 2 ^ (bd + e.toNat + 52) ≤ 2 ^ bn :=
        Nat.pow_le_pow_right (by norm_num) (by omega)
      rw [pow_add, pow_add] at hp
      generalize 2 ^ e.toNat = X at hp ⊢
      generalize 2 ^ bd = Y at hp hbd
      generalize 2 ^ bn = Z at hp hbn
      nlinarith

/-- A packed value is an infinity or a finite value with the sign handed in and an
exponent that is not below the one handed in. -/
theorem pack_form (s : Bool) (m : Nat) (e : Int) :
    pack s m e = inf s ∨ ∃ m1 e1, pack s m e = finite s m1 e1 ∧ e ≤ e1 := by
  unfold pack
  simp only
  by_cases h : 971 < (if m = 2 ^ 53 then e + 1 else e)
  · left
    rw [if_pos h]
  · right
    rw [if_neg h]
    refine ⟨_, _, rfl, ?_⟩
    by_cases hm : m = 2 ^ 53
    · rw [if_pos hm]; omega
    · rw [if_neg hm]

/-- A packed non-zero mantissa is not zero. -/
theorem pack_isZero (s : Bool) (m : Nat) (e : Int) (hm : m ≠ 0) :
    (pack s m e).isZero = false := by
  unfold pack
  simp only
  by_cases h : 971 < (if m = 2 ^ 53 then e + 1 else e)
  · rw [if_pos h]; rfl
  · rw [if_neg h]
    simp only [isZero, decide_eq_false_iff_not]
    by_cases h53 : m = 2 ^ 53
    · rw [if_pos h53]; norm_num
    · rw [if_neg h53]; exact hm

/-- A rounded value is an infinity or a finite value with the sign handed in and an
exponent of at least `-1074`. -/
theorem round_form (s : Bool) (n d : Nat) :
    round s n d = inf s ∨ ∃ m e, round s n d = finite s m e ∧ -1074 ≤ e := by
  unfold round
  by_cases hn : n = 0
  · right
    exact ⟨0, -1074, by simp [hn], le_rfl⟩
  · simp only [hn, if_false]
    have hq := (quantum_bounds n d).1
    rcases pack_form s (if d * 2 ^ (quantum n d).toNat
          < 2 * (n * 2 ^ (-quantum n d).toNat % (d * 2 ^ (quantum n d).toNat))
        ∨ 2 * (n * 2 ^ (-quantum n d).toNat % (d * 2 ^ (quantum n d).toNat))
            = d * 2 ^ (quantum n d).toNat
          ∧ n * 2 ^ (-quantum n d).toNat / (d * 2 ^ (quantum n d).toNat) % 2 = 1
        then n * 2 ^ (-quantum n d).toNat / (d * 2 ^ (quantum n d).toNat) + 1
        else n * 2 ^ (-quantum n d).toNat / (d * 2 ^ (quantum n d).toNat)) (quantum n d)
      with h | ⟨m1, e1, h, he⟩
    · left; exact h
    · right; exact ⟨m1, e1, h, by omega⟩

/-- A value of at least `2^-1074` is not rounded to zero. -/
theorem round_isZero (s : Bool) (n d : Nat) (hn : n ≠ 0) (hd : d ≠ 0)
    (h : d ≤ n * 2 ^ 1074) : (round s n d).isZero = false := by
  have hle := quantum_scaled_le n d hn h
  unfold round
  simp only [hn, if_false]
  generalize quantum n d = e at hle ⊢
  have hD : 0 < d * 2 ^ e.toNat := Nat.mul_pos (Nat.pos_of_ne_zero hd) (by positivity)
  have hm0 : 1 ≤ n * 2 ^ (-e).toNat / (d * 2 ^ e.toNat) :=
    (Nat.one_le_div_iff hD).mpr hle
  apply pack_isZero
  split <;> omega

/-- The square of a double is not a number, `+inf`, or a non-negative finite value
with an exponent of at least `-1074`. -/
theorem mul_self_form (x : Double) :
    x * x = nan ∨ x * x = inf false ∨ ∃ m e, x * x = finite false m e ∧ -1074 ≤ e := by
  show mul x x = nan ∨ mul x x = inf false ∨ ∃ m e, mul x x = finite false m e ∧ -1074 ≤ e
  cases x with
  | nan => left; rfl
  | inf s => right; left; simp [mul]
  | finite s m e =>
    simp only [mul, Bool.xor_self]
    rcases round_form false (m * m * 2 ^ (e + e).toNat) (2 ^ (-(e + e)).toNat) with h | h
    · right; left; exact h
    · right; right; exact h

/-- The sum of two non-negative finite doubles with exponents of at least `-1074` is
zero only when both are zero, and its sign bit is clear. -/
theorem add_nonneg_finite (m n : Nat) (e f : Int) (he : -1074 ≤ e) (hf : -1074 ≤ f) :
    ((finite false m e + finite false n f).isZero = true ↔ m = 0 ∧ n = 0)
    ∧ (finite false m e + finite false n f).signBit = false := by
  show ((add (finite false m e) (finite false n f)).isZero = true ↔ m = 0 ∧ n = 0)
    ∧ (add (finite false m e) (finite false n f)).signBit = false
  simp only [add, Bool.false_eq_true, if_false, one_mul, Bool.and_self]
  have hpe : 0 < 2 ^ (e - min e f).toNat := by positivity
  have hpf : 0 < 2 ^ (f - min e f).toNat := by positivity
  generalize hg : min e f = g at hpe hpf ⊢
  have hg1 : -1074 ≤ g := by omega
  by_cases hc : ((m * 2 ^ (e - g).toNat : Nat) : Int) + ((n * 2 ^ (f - g).toNat : Nat) : Int) = 0
  · have hm : m * 2 ^ (e - g).toNat = 0 := by omega
    have hn : n * 2 ^ (f - g).toNat = 0 := by omega
    have hm0 : m = 0 := by
      rcases Nat.mul_eq_zero.mp hm with h | h
      · exact h
      · omega
    have hn0 : n = 0 := by
      rcases Nat.mul_eq_zero.mp hn with h | h
      · exact h
      · omega
    simp [hc, isZero, signBit, hm0, hn0]
  · simp only [hc, if_false]
    have hpos : ¬ (((m * 2 ^ (e - g).toNat : Nat) : Int) + ((n * 2 ^ (f - g).toNat : Nat) : Int) < 0) := by
      omega
    simp only [hpos, decide_False]
    have hmn : ¬ (m = 0 ∧ n = 0) := by
      rintro ⟨rfl, rfl⟩
      simp at hc
    generalize hA : (((m * 2 ^ (e - g).toNat : Nat) : Int) + ((n * 2 ^ (f - g).toNat : Nat) : Int)).natAbs = c
    have hc0 : c ≠ 0 := by omega
    have hz : (round false (c * 2 ^ g.toNat) (2 ^ (-g).toNat)).isZero = false := by
      apply round_isZero
      · exact Nat.mul_ne_zero hc0 (by positivity)
      · positivity
      · have h1 : 2 ^ (-g).toNat ≤ 2 ^ 1074 := Nat.pow_le_pow_right (by norm_num) (by omega)
        have h2 : 1 ≤ c * 2 ^ g.toNat := Nat.one_le_iff_ne_zero.mpr (Nat.mul_ne_zero hc0 (by positivity))
        calc 2 ^ (-g).toNat ≤ 1 * 2 ^ 1074 := by simpa using h1
          _ ≤ c * 2 ^ g.toNat * 2 ^ 1074 := Nat.mul_le_mul_right _ h2
    constructor
    · simp [hz, hmn]
    · rcases round_form false (c * 2 ^ g.toNat) (2 ^ (-g).toNat) with h | ⟨a, b, h, _⟩
      · rw [h]; rfl
      · rw [h]; rfl

/-- The sum of two squares in binary64: its sign bit is clear, and it is zero exactly
when both squares are zero. -/
theorem add_squares (x y : Double) :
    (x * x + y * y).signBit = false
    ∧ ((x * x + y * y).isZero = true ↔ (x * x).isZero = true ∧ (y * y).isZero = true) := by
  have hadd : ∀ a b : Double, a + b = add a b := fun _ _ => rfl
  rcases mul_self_form x with hx | hx | ⟨m, e, hx, he⟩
  · rw [hx, hadd]
    simp [add, isZero, signBit]
  · rcases mul_self_form y with hy | hy | ⟨n, f, hy, _⟩
    · rw [hx, hy, hadd]
      simp [add, isZero, signBit]
    · rw [hx, hy, hadd]
      simp [add, isZero, signBit]
    · rw [hx, hy, hadd]
      simp [add, isZero, signBit]
  · rcases mul_self_form y with hy | hy | ⟨n, f, hy, hf⟩
    · rw [hx, hy, hadd]
      simp [add, isZero, signBit]
    · rw [hx, hy, hadd]
      simp [add, isZero, signBit]
    · rw [hx, hy]
      have h := add_nonneg_finite m n e f he hf
      refine ⟨h.2, ?_⟩
      rw [h.1]
      simp [isZero]

end Double

/-! ## Divisors -/

/-- Claim C10, as amended.  In exact arithmetic (ordered field `K`) the denominator
`sDenom = v_oo_x^2 + (L*om_oo_z)^2` is non-negative, it is zero exactly when
`v_oo_x = 0` and `L*om_oo_z = 0`, and when `v_oo_x ≠ 0` both divisors of the two
methods, `sDenom` and `v_oo_x`, are non-zero.  In binary64 arithmetic `sDenom` is
never negative and it is zero exactly when both computed squares `v_oo_x * v_oo_x`
and `(L*om_oo_z) * (L*om_oo_z)` are zero; the three divisions of the Jacobians are by
`sDenom`, which is non-zero whenever the computed square `v_oo_x * v_oo_x` is. -/
theorem sDenom_nonneg_zero_iff {K : Type} [LinearOrderedField K] (params : Fin 11 → K)
    (v_oo om_oo : Fin 3 → K) (paramsD : Fin 11 → Double) (v_ooD om_ooD : Fin 3 → Double)
    (odoD : Fin 1 → Double) :
    0 ≤ sDenom params v_oo om_oo
    ∧ sDenom params v_oo om_oo = v_oo 0 ^ 2 + (params 0 * om_oo 2) ^ 2
    ∧ (sDenom params v_oo om_oo = 0 ↔ v_oo 0 = 0 ∧ params 0 * om_oo 2 = 0)
    ∧ (v_oo 0 ≠ 0 → sDenom params v_oo om_oo ≠ 0 ∧ v_oo 0 ≠ 0)
    ∧ (sDenom paramsD v_ooD om_ooD).signBit = false
    ∧ ((sDenom paramsD v_ooD om_ooD).isZero = true
        ↔ (v_ooD 0 * v_ooD 0).isZero = true
          ∧ (paramsD 0 * om_ooD 2 * (paramsD 0 * om_ooD 2)).isZero = true)
    ∧ ((v_ooD 0 * v_ooD 0).isZero = false → (sDenom paramsD v_ooD om_ooD).isZero = false)
    ∧ (steeringJacobians paramsD v_ooD om_ooD odoD).Ht 0 0
        = -v_ooD 0 * om_ooD 2 / sDenom paramsD v_ooD om_ooD
    ∧ (steeringJacobians paramsD v_ooD om_ooD odoD).Hv 0 0
        = paramsD 0 * om_ooD 2 / sDenom paramsD v_ooD om_ooD
    ∧ (steeringJacobians paramsD v_ooD om_ooD odoD).Ho 0 2
        = -paramsD 0 * v_ooD 0 / sDenom paramsD v_ooD om_ooD := by
  have h1 := mul_self_nonneg (v_oo 0)
  have h2 := mul_self_nonneg (params 0 * om_oo 2)
  have hiff : sDenom params v_oo om_oo = 0 ↔ v_oo 0 = 0 ∧ params 0 * om_oo 2 = 0 := by
    unfold sDenom
    constructor
    · intro h
      have := (add_eq_zero_iff_of_nonneg h1 h2).mp h
      exact ⟨mul_self_eq_zero.mp this.1, mul_self_eq_zero.mp this.2⟩
    · rintro ⟨ha, hb⟩
      simp [ha, hb]
  have hD := Double.add_squares (v_ooD 0) (paramsD 0 * om_ooD 2)
  have hJ := steeringJacobians_entries_arith paramsD v_ooD om_ooD odoD
  refine ⟨?_, ?_, hiff, ?_, hD.1, hD.2, ?_, hJ.1, hJ.2.2.2.2.2.1, hJ.2.2.2.2.2.2.1⟩
  · unfold sDenom
    exact add_nonneg h1 h2
  · unfold sDenom
    ring
  · intro hv
    exact ⟨fun h => hv (hiff.mp h).1, hv⟩
  · intro hv
    cases hz : (sDenom paramsD v_ooD om_ooD).isZero
    · rfl
    · have := (hD.2.mp hz).1
      rw [hv] at this
      exact absurd this (by decide)

/-- Instance of C10 at `L = 2`, `v_oo = (1, 0, 0)`, `om_oo = (0, 0, 1)` over the
rationals: the denominator is not zero. -/
theorem sDenom_nonneg_zero_iff_witness :
    sDenom (exampleMem ℚ 5) ![1, 0, 0] ![0, 0, 1] ≠ 0 :=
  ((sDenom_nonneg_zero_iff (exampleMem ℚ 5) ![1, 0, 0] ![0, 0, 1]
      (unitMem 5) ![1, 0, 0] ![0, 0, 1] ![0]).2.2.2.1 (by simp)).1

/-- Claim C10 fails in binary64 arithmetic.  With `L = 1`, `om_oo_z = 0` and
`v_oo_x = 2^-600 ≠ 0` the square `v_oo_x * v_oo_x` underflows to zero and `sDenom`
is zero, so that the Jacobian divisions are `0/0` and `x/0`: `Hv(0,0)` is NaN and
`Ho(0,2)` is `-inf`. -/
theorem sDenom_zero_at_underflow :
    (doubleTerm (Double.twoPow (-600)) 0 1).v_oo.toValue 0 = Double.twoPow (-600)
    ∧ Double.twoPow (-600) ≠ 0
    ∧ (Double.twoPow (-600)).isZero = false
    ∧ Double.twoPow (-600) * Double.twoPow (-600) = 0
    ∧ sDenom (unitMem 5) (doubleTerm (Double.twoPow (-600)) 0 1).v_oo.toValue
        (doubleTerm (Double.twoPow (-600)) 0 1).om_oo.toValue = 0
    ∧ (steeringJacobians (unitMem 5) (doubleTerm (Double.twoPow (-600)) 0 1).v_oo.toValue
        (doubleTerm (Double.twoPow (-600)) 0 1).om_oo.toValue ![0]).Hv 0 0 = Double.nan
    ∧ (steeringJacobians (unitMem 5) (doubleTerm (Double.twoPow (-600)) 0 1).v_oo.toValue
        (doubleTerm (Double.twoPow (-600)) 0 1).om_oo.toValue ![0]).Ho 0 2
        = Double.inf true := by
  decide!

end aslam.calibration

namespace aslam.calibration

open ErrorTermSteering

/-! ## Scale invariance in the velocities -/

/-- The processing loop never prints the usage line. -/
theorem processLoop_no_usage {σ : Type} (cal : CameraCalibrator σ) (config : Config)
    (ms : List MessageInstance) (s : σ) :
    Event.printUsage ∉ (processLoop cal config ms s).2 := by
  induction ms generalizing s with
  | nil => simp [processLoop]
  | cons m ms ih =>
    intro he
    simp only [processLoop, List.mem_append] at he
    rcases he with he | he
    · revert he
      unfold processMessage
      by_cases ht : m.topic = config.rosTopic
      · by_cases hs : config.saveEstimatorImages = true
        · by_cases hn : cal.numObservations (cal.addImage s m.image m.stamp)
              = cal.numObservations s
          · simp [ht, hs, hn]
          · simp [ht, hs, hn]
        · simp [ht, hs]
      · simp [ht]
    · exact ih _ he

/-- Claim C12.  `main` returns `-1` exactly when it stops at the argument check, that
is when its only event is the usage line, and this happens exactly when `argc ≠ 3`:
then no configuration is loaded, no bag is opened, the calibrator is not called and
no file is written.  Every run with `argc = 3` returns `0`, after loading the
configuration and opening the bag, without printing the usage line. -/
theorem main_returns_minus_one_iff_wrong_argc {σ : Type} (cal : CameraCalibrator σ) (s0 : σ)
    (config : Config) (bag : List MessageInstance) (argc : Int) (argv : List String) :
    ((main cal s0 config bag argc argv).1 = -1 ↔ argc ≠ 3)
    ∧ ((main cal s0 config bag argc argv).2 = [Event.printUsage] ↔ argc ≠ 3)
    ∧ ((main cal s0 config bag argc argv).1 = -1
        ↔ (main cal s0 config bag argc argv).2 = [Event.printUsage])
    ∧ (argc = 3 → (main cal s0 config bag argc argv).1 = 0
        ∧ Event.printUsage ∉ (main cal s0 config bag argc argv).2
        ∧ ∃ rest, (main cal s0 config bag argc argv).2
            = Event.loadXml (argv.getD 2 "") :: Event.openBag (argv.getD 1 "") :: rest) := by
  by_cases h : argc = 3
  · subst h
    have hu : Event.printUsage ∉ (main cal s0 config bag 3 argv).2 := by
      have h1 := initGeometryLoop_events cal config.rosTopic (view bag [config.rosTopic]) s0
      intro hmem
      simp only [main, ne_eq, not_true_eq_false, if_false, List.mem_append, List.mem_cons,
        List.mem_singleton, List.not_mem_nil, or_false] at hmem
      rcases hmem with ((((h | h) | h) | h) | h) | h
      · cases h
      · cases h
      · obtain ⟨i, hi⟩ := h1 _ h
        cases hi
      · exact processLoop_no_usage cal config _ _ h
      · cases h
      · revert h
        cases hc : config.outputErrors <;> simp [report, hc]
    refine ⟨?_, ?_, ?_, ?_⟩
    · simp [main]
    · simp [main]
    · simp [main]
    · intro _
      refine ⟨by simp [main], hu, ?_⟩
      exact ⟨(initGeometryLoop cal config.rosTopic (view bag [config.rosTopic]) s0).2
        ++ (processLoop cal config (view bag [config.rosTopic])
            (initGeometryLoop cal config.rosTopic (view bag [config.rosTopic]) s0).1).2
        ++ [Event.processBatch] ++ report config, by simp [main]⟩
  · refine ⟨?_, ?_, ?_, fun h3 => absurd h3 h⟩ <;> simp [main, h]

/-- Instance of C12: called without arguments (`argc = 1`), `main` prints the usage
line and returns `-1`. -/
theorem main_returns_minus_one_iff_wrong_argc_witness :
    main exampleCalibrator [] ⟨"cam", true, true⟩ exampleBag 1 ["calibrateCamera"]
      = (-1, [Event.printUsage]) :=
  Prod.ext
    ((main_returns_minus_one_iff_wrong_argc exampleCalibrator [] ⟨"cam", true, true⟩
      exampleBag 1 ["calibrateCamera"]).1.mpr (by decide))
    ((main_returns_minus_one_iff_wrong_argc exampleCalibrator [] ⟨"cam", true, true⟩
      exampleBag 1 ["calibrateCamera"]).2.1.mpr (by decide))

end aslam.calibration
